import Mathlib

/-!
Verification of the request-routing and resilience core of the `thanos`
inference gateway, as a shallow embedding in Lean 4.

Each definition is translated from one Rust item of the repository; the file
comment above each definition names the source file and item.  Machine
integers (`i32`, `u32`, `usize`) are modelled as `Int`/`Nat` (no arithmetic
here approaches their ranges), `f64` amounts in the rate limiter are modelled
as exact rationals `ℚ`, `Instant` timestamps as numeric seconds, and the
`f32` request fields (`temperature`, `top_p`) — never computed with, only
rendered — are modelled by their decimal rendering.  Metric updates are pure
side effects on the Prometheus registry and are omitted: no claim mentions
them.  Hash-map states are modelled as association lists (the source's
`HashMap` iteration order is arbitrary; where the source iterates, the
comment at the definition says what depends on it).
-/

namespace Thanos

/-! ## Data model (`src/types.rs`) -/

/-- Type `Role` from `src/types.rs`. -/
inductive Role where
  | System
  | User
  | Assistant
deriving DecidableEq

/-- Rust's `{:?}` (derived `Debug`) rendering of `Role`, used by `cache_key`. -/
def debugRole : Role → String
  | .System => "System"
  | .User => "User"
  | .Assistant => "Assistant"

/-- Type `ChatMessage` from `src/types.rs`. -/
structure ChatMessage where
  role : Role
  content : String
deriving DecidableEq

/-- Model of an `f32` value by its Rust `Display` rendering.  The router core
never does arithmetic on `temperature`/`top_p`; `cache_key` only feeds
`temp.to_string()` to the hasher, so the rendering is all that matters. -/
structure F32 where
  repr : String
deriving DecidableEq

/-- Type `ChatRequest` from `src/types.rs`. -/
structure ChatRequest where
  model : String
  messages : List ChatMessage
  stream : Bool
  temperature : Option F32
  max_tokens : Option Int
  top_p : Option F32
  system : Option String
deriving DecidableEq

/-- Type `Usage` from `src/types.rs` (`i32` fields modelled as `Int`). -/
structure Usage where
  prompt_tokens : Int
  completion_tokens : Int
  total_tokens : Int
deriving DecidableEq

/-- Type `ChatResponse` from `src/types.rs`. -/
structure ChatResponse where
  provider : String
  model : String
  content : String
  done : Bool
  usage : Option Usage
  finish_reason : Option String
deriving DecidableEq

/-- Type `Provider` from `src/types.rs`. -/
inductive Provider where
  | Anthropic
  | AnthropicMax
  | OpenAI
  | Xai
  | Gemini
  | GithubCopilot
  | Ollama
  | Omen
deriving DecidableEq

/-- Function `Provider::as_str` from `src/types.rs`. -/
def Provider.asStr : Provider → String
  | .Anthropic => "anthropic"
  | .AnthropicMax => "anthropic_max"
  | .OpenAI => "openai"
  | .Xai => "xai"
  | .Gemini => "gemini"
  | .GithubCopilot => "github_copilot"
  | .Ollama => "ollama"
  | .Omen => "omen"

/-- ASCII lowercasing of one character, modelling Rust's `to_lowercase` on the
ASCII range (all provider names are ASCII; on non-ASCII input Rust applies the
Unicode mapping, which is likewise idempotent, so the theorems below state the
same facts the source satisfies). -/
def asciiToLower (c : Char) : Char :=
  if h : 65 ≤ c.toNat ∧ c.toNat ≤ 90 then
    Char.ofNatAux (c.toNat + 32) (Or.inl (by omega))
  else c

/-- Rust `str::to_lowercase`, modelled characterwise on the ASCII range. -/
def strToLower (s : String) : String :=
  String.mk (s.data.map asciiToLower)

/-- Function `Provider::from_str` from `src/types.rs`: lowercase the input, then match
it against the eight provider names (the source's `match` is this `if` chain). -/
def Provider.fromStr (s : String) : Option Provider :=
  let t := strToLower s
  if t = "anthropic" then some .Anthropic
  else if t = "anthropic_max" then some .AnthropicMax
  else if t = "openai" then some .OpenAI
  else if t = "xai" then some .Xai
  else if t = "gemini" then some .Gemini
  else if t = "github_copilot" then some .GithubCopilot
  else if t = "ollama" then some .Ollama
  else if t = "omen" then some .Omen
  else none

/-! ## Circuit breaker (`src/circuit_breaker.rs`)

`Instant` timestamps and the `Duration` cooldown are modelled as seconds in
`Nat`.  The per-provider map is handled at the call sites (`can_attempt` and
`record_failure` insert a fresh Closed circuit for an absent key; the fresh
circuit is `ProviderCircuit.initial` below). -/

/-- Type `CircuitState` from `src/circuit_breaker.rs`. -/
inductive CircuitState where
  | Closed
  | Open
  | HalfOpen
deriving DecidableEq

/-- Type `ProviderCircuit` from `src/circuit_breaker.rs`. -/
structure ProviderCircuit where
  state : CircuitState
  failures : Nat
  successes : Nat
  last_failure_time : Option Nat
  next_attempt : Option Nat
deriving DecidableEq

/-- The circuit inserted by `or_insert_with` for a provider not yet tracked. -/
def ProviderCircuit.initial : ProviderCircuit :=
  { state := .Closed, failures := 0, successes := 0,
    last_failure_time := none, next_attempt := none }

/-- Method `CircuitBreaker::can_attempt` from `src/circuit_breaker.rs`, acting on one
provider's circuit: returns the decision and the (possibly updated) circuit. -/
def canAttempt (now : Nat) (c : ProviderCircuit) : Bool × ProviderCircuit :=
  match c.state with
  | .Closed => (true, c)
  | .Open =>
    match c.next_attempt with
    | some na =>
      if na ≤ now then
        (true, { c with state := .HalfOpen, successes := 0 })
      else
        (false, c)
    | none => (false, c)
  | .HalfOpen => (true, c)

/-- Method `CircuitBreaker::record_success` from `src/circuit_breaker.rs`
(`st` is the breaker's `success_threshold`). -/
def recordSuccess (st : Nat) (c : ProviderCircuit) : ProviderCircuit :=
  match c.state with
  | .Closed => { c with failures := 0 }
  | .HalfOpen =>
    let s := c.successes + 1
    if st ≤ s then
      { c with state := .Closed, failures := 0, successes := 0 }
    else
      { c with successes := s }
  | .Open => c

/-- Method `CircuitBreaker::record_failure` from `src/circuit_breaker.rs`
(`ft` is `failure_threshold`, `timeout` the cooldown in seconds; the metric
updates in the source have no effect on the circuit). -/
def recordFailure (ft timeout now : Nat) (c : ProviderCircuit) : ProviderCircuit :=
  let c := { c with last_failure_time := some now }
  match c.state with
  | .Closed =>
    let f := c.failures + 1
    if ft ≤ f then
      { c with failures := f, state := .Open, next_attempt := some (now + timeout) }
    else
      { c with failures := f }
  | .HalfOpen => { c with state := .Open, next_attempt := some (now + timeout) }
  | .Open => c

/-! ## Router (`src/router.rs`)

`Router::new` constructs the breaker with `failure_threshold = 5`,
`success_threshold = 3`, `timeout_secs = 30`.

The adapter dispatch inside `call_provider` (build the provider from config,
run `chat_completion`) is abstracted by handing the functions below the
outcome that the dispatched adapter call would produce; everything the router
itself does — the breaker gate, the breaker record on success/failure, the
error values, the candidate choice — is translated.  Each function also
returns the list of providers whose adapters were actually invoked, so that
"without calling A" is a statement of the model. -/

/-- Error string of `route_preferred` / `route_round_robin` for an empty
enabled set (`anyhow!("No enabled providers available")`). -/
def noProviderMsg : String := "No enabled providers available"

/-- Error string of `call_provider`'s breaker gate
(`anyhow!("Circuit breaker open for provider: {}", provider_name)`). -/
def breakerOpenMsg (name : String) : String :=
  "Circuit breaker open for provider: " ++ name

/-- Method `Router::call_provider` from `src/router.rs` for one provider: gate on the
breaker, then run the adapter (its outcome is the parameter `adapterResult`)
and record the outcome on the breaker.  Returns the call result, the updated
circuit, and whether the adapter was invoked. -/
def callProvider (ft st timeout now : Nat) (name : String) (c : ProviderCircuit)
    (adapterResult : Except String α) : Except String α × ProviderCircuit × Bool :=
  let gate := canAttempt now c
  if gate.1 then
    match adapterResult with
    | .ok r => (.ok r, recordSuccess st gate.2, true)
    | .error e => (.error e, recordFailure ft timeout now gate.2, true)
  else
    (.error (breakerOpenMsg name), gate.2, false)

/-- Method `Router::route_preferred` from `src/router.rs`: route to the first enabled
provider (`providers` is `config.enabled_providers()`; `circuits` gives each
provider's current circuit, `adapterResult` the outcome its adapter would
produce).  Returns the result, the first provider's updated circuit, and
whether its adapter was invoked. -/
def routePreferred (ft st timeout now : Nat) (providers : List String)
    (circuits : String → ProviderCircuit) (adapterResult : Except String α) :
    Except String α × ProviderCircuit × Bool :=
  match providers with
  | [] => (.error noProviderMsg, ProviderCircuit.initial, false)
  | p :: _ => callProvider ft st timeout now p (circuits p) adapterResult

/-- Method `Router::route_round_robin` (and the identical selection logic of
`Router::stream_round_robin`) from `src/router.rs`.  `outcomes` lists, in
enabled-provider order, the outcome `call_provider` would produce for each
enabled provider; `counter` is the current value of `round_robin_counter`.
Returns the result, the list of indices actually attempted, and the new
counter value (`fetch_add(1)` runs only after the emptiness check). -/
def routeRoundRobin (outcomes : List (Except String α)) (counter : Nat) :
    Except String α × List Nat × Nat :=
  match outcomes with
  | [] => (.error noProviderMsg, [], counter)
  | o :: os =>
    let index := counter % (o :: os).length
    ((o :: os).get ⟨index, Nat.mod_lt _ (Nat.succ_pos _)⟩, [index], counter + 1)

/-! ## Response cache (`src/cache.rs`)

The `HashMap<String, CacheEntry>` is modelled as an association list with
distinct keys; `Instant` timestamps as `Nat` seconds.  `min_by_key` returns
the first minimal element of the iteration, and `HashMap` iteration order is
arbitrary, so on ties in `created_at` the evicted entry is one arbitrary
minimal entry; the list model evicts the first minimal entry in list order
(no theorem below depends on the tie-break). -/

/-- Type `CacheEntry` from `src/cache.rs`. -/
structure CacheEntry where
  response : ChatResponse
  created_at : Nat
  access_count : Nat
deriving DecidableEq

/-- The entry with the smallest `created_at` (first minimal on ties), as
selected by the eviction scan `entries.iter().min_by_key(|(_, e)| e.created_at)`
in `ResponseCache::set`. -/
def oldestEntry : List (String × CacheEntry) → Option (String × CacheEntry)
  | [] => none
  | e :: es =>
    match oldestEntry es with
    | none => some e
    | some m => if m.2.created_at < e.2.created_at then some m else some e

/-- Method `ResponseCache::get` from `src/cache.rs`: expired entries (strictly older
than `ttl`) are removed and miss; a hit bumps `access_count` and returns the
response.  (`Instant::duration_since` saturates at zero, as does `Nat`
subtraction.)  Returns the result and the updated entries. -/
def cacheGet (ttl now : Nat) (k : String) (entries : List (String × CacheEntry)) :
    Option ChatResponse × List (String × CacheEntry) :=
  match entries.find? (fun p => p.1 = k) with
  | none => (none, entries)
  | some (_, e) =>
    if ttl < now - e.created_at then
      (none, entries.filter (fun p => p.1 ≠ k))
    else
      (some e.response,
       entries.map (fun p =>
         if p.1 = k then (p.1, { e with access_count := e.access_count + 1 }) else p))

/-- Method `ResponseCache::set` from `src/cache.rs`: when the map is at capacity and
the key is new, first evict the entry with the smallest `created_at`; then
insert (replace on an existing key). -/
def cacheSet (max_size now : Nat) (k : String) (v : ChatResponse)
    (entries : List (String × CacheEntry)) : List (String × CacheEntry) :=
  let entries1 :=
    if max_size ≤ entries.length ∧ entries.all (fun p => p.1 ≠ k) then
      match oldestEntry entries with
      | some m => entries.filter (fun p => p.1 ≠ m.1)
      | none => entries
    else entries
  let newEntry : CacheEntry := { response := v, created_at := now, access_count := 0 }
  if entries1.any (fun p => p.1 = k) then
    entries1.map (fun p => if p.1 = k then (k, newEntry) else p)
  else
    entries1 ++ [(k, newEntry)]

/-- One cache operation, with the `Instant::now()` observed during it. -/
inductive CacheOp where
  | get (now : Nat) (key : String)
  | set (now : Nat) (key : String) (v : ChatResponse)
  | clear
deriving DecidableEq

/-- Apply one operation to the entry map (`ResponseCache::clear` empties it). -/
def cacheApply (max_size ttl : Nat) (entries : List (String × CacheEntry)) :
    CacheOp → List (String × CacheEntry)
  | .get now k => (cacheGet ttl now k entries).2
  | .set now k v => cacheSet max_size now k v entries
  | .clear => []

/-- Run a sequence of operations from the empty cache of `ResponseCache::new`. -/
def cacheRun (max_size ttl : Nat) (ops : List CacheOp) : List (String × CacheEntry) :=
  ops.foldl (cacheApply max_size ttl) []

/-- Function `cache_key` from `src/cache.rs`, minus the final SHA-256: the exact byte
string fed to the hasher, in update order — `model`, then `"{:?}:{}"` of each
message's role and content, then `to_string()` of `temperature` and
`max_tokens` when present.  SHA-256 is an external library function; it maps
equal inputs to equal hex digests, so equal `cacheKeyInput`s mean equal cache
keys. -/
def cacheKeyInput (r : ChatRequest) : String :=
  r.model
    ++ String.join (r.messages.map (fun m => debugRole m.role ++ ":" ++ m.content))
    ++ (match r.temperature with
        | some t => t.repr
        | none => "")
    ++ (match r.max_tokens with
        | some n => toString n
        | none => "")

/-! ## Rate limiter (`src/rate_limit.rs`)

One key's bucket.  `tokens` is an `f64` in the source; it is modelled as an
exact rational — the only operations are addition of a nonnegative refill,
clamping by `min`, comparison with 1 and subtraction of 1, whose order
properties the claims rely on hold in `f64` exactly as in `ℚ`.  `Instant`
timestamps are rational seconds. -/

/-- Type `TokenBucket` from `src/rate_limit.rs`. -/
structure TokenBucket where
  tokens : ℚ
  last_refill : ℚ
  hourly_count : Nat
  hourly_reset : ℚ
deriving DecidableEq

/-- Method `RateLimiter::check_rate_limit` from `src/rate_limit.rs` for one key:
`b` is the key's bucket if present (`or_insert_with` creates a full bucket
otherwise).  Returns the admit/reject decision and the stored bucket. -/
def checkRateLimit (rpm rph : Nat) (now : ℚ) (b : Option TokenBucket) :
    Bool × TokenBucket :=
  let bucket := b.getD
    { tokens := rpm, last_refill := now, hourly_count := 0, hourly_reset := now + 3600 }
  let bucket :=
    if bucket.hourly_reset ≤ now then
      { bucket with hourly_count := 0, hourly_reset := now + 3600 }
    else bucket
  if rph ≤ bucket.hourly_count then
    (false, bucket)
  else
    let elapsed := now - bucket.last_refill
    let refill_rate := (rpm : ℚ) / 60
    let bucket := { bucket with
      tokens := min (bucket.tokens + elapsed * refill_rate) (rpm : ℚ),
      last_refill := now }
    if 1 ≤ bucket.tokens then
      (true, { bucket with tokens := bucket.tokens - 1,
                           hourly_count := bucket.hourly_count + 1 })
    else
      (false, bucket)

/-- Bucket states reachable by some sequence of `check_rate_limit` calls at
nondecreasing clock readings (`Instant::now()` is monotone); the `ℚ` index is
the time of the latest call. -/
inductive ReachableBucket (rpm rph : Nat) : ℚ → TokenBucket → Prop where
  | init (now : ℚ) : ReachableBucket rpm rph now (checkRateLimit rpm rph now none).2
  | step (t : ℚ) (b : TokenBucket) (now : ℚ) :
      ReachableBucket rpm rph t b → t ≤ now →
      ReachableBucket rpm rph now (checkRateLimit rpm rph now (some b)).2

/-! ## Anthropic streaming adapter (`src/providers/anthropic.rs`)

`AnthropicProvider::chat_completion_stream`'s spawned task reads the SSE body
incrementally: bytes are appended to a `String` buffer; while the buffer
contains `"\n\n"` the prefix up to the first occurrence is one SSE event
block; within a block the *last* line carrying the `"data: "` prefix is the
event payload; the payload is decoded by `serde_json::from_str::<StreamEvent>`
(a decode failure skips the block); the decoded event drives the state
machine below, and a `message_stop` event makes the task return, after which
no further bytes are read.

Bytes are modelled as `List Char` (the source lossily decodes each network
chunk to UTF-8 and the canonical input is ASCII).  `serde_json` is an external
library; the JSON decoder enters the model as the `parse` parameter, fixed at
the canonical payloads by `anthCanonicalParse` below. -/

/-- Type `StreamEvent` from `src/providers/anthropic.rs`, keeping the fields the
stream loop reads (`message.usage.input_tokens`, the delta text,
`delta.stop_reason`, `usage.output_tokens`). -/
inductive AnthropicEvent where
  | MessageStart (input_tokens : Int)
  | ContentBlockStart
  | ContentBlockDelta (text : String)
  | ContentBlockStop
  | MessageDelta (stop_reason : Option String) (output_tokens : Option Int)
  | MessageStop
  | Ping
  | Unknown
deriving DecidableEq

/-- The mutable locals of the stream loop (`input_tokens`, `output_tokens`,
`finish_reason`). -/
structure AnthState where
  input_tokens : Int
  output_tokens : Int
  finish_reason : Option String
deriving DecidableEq

/-- Loop-local state at task start (`0`, `0`, `None`). -/
def AnthState.initial : AnthState :=
  { input_tokens := 0, output_tokens := 0, finish_reason := none }

/-- The chunk sent for one `content_block_delta` text delta. -/
def anthDeltaChunk (model text : String) : ChatResponse :=
  { provider := "anthropic", model := model, content := text, done := false,
    usage := none, finish_reason := none }

/-- The final chunk sent on `message_stop`: empty content, `done`, aggregated
usage with `total_tokens = input_tokens + output_tokens`. -/
def anthFinalChunk (model : String) (st : AnthState) : ChatResponse :=
  { provider := "anthropic", model := model, content := "", done := true,
    usage := some { prompt_tokens := st.input_tokens,
                    completion_tokens := st.output_tokens,
                    total_tokens := st.input_tokens + st.output_tokens },
    finish_reason := st.finish_reason }

/-- The `match event` arms of the stream loop: new state, chunks sent, and
whether the task returns (`message_stop`).  `content_block_start`,
`content_block_stop`, `ping` and unknown events are ignored. -/
def anthStepEvent (model : String) (st : AnthState) :
    AnthropicEvent → AnthState × List ChatResponse × Bool
  | .MessageStart i => ({ st with input_tokens := i }, [], false)
  | .ContentBlockDelta text => (st, [anthDeltaChunk model text], false)
  | .MessageDelta sr u =>
    ({ st with finish_reason := sr, output_tokens := u.getD st.output_tokens },
     [], false)
  | .MessageStop => (st, [anthFinalChunk model st], true)
  | _ => (st, [], false)

/-- Process a sequence of decoded events, stopping at the first
`message_stop` (the task returns; later events are never seen). -/
def anthProcessEvents (model : String) (st : AnthState) :
    List AnthropicEvent → AnthState × List ChatResponse × Bool
  | [] => (st, [], false)
  | e :: es =>
    let r1 := anthStepEvent model st e
    if r1.2.2 then r1
    else
      let r2 := anthProcessEvents model r1.1 es
      (r2.1, r1.2.1 ++ r2.2.1, r2.2.2)

/-- Split the buffer at every `"\n\n"`, leftmost first, exactly as the
source's `while let Some(event_end) = buffer.find("\n\n")` loop consumes it:
returns the complete event blocks in order and the residual buffer (which
contains no `"\n\n"`). -/
def splitBlocks : List Char → List (List Char) × List Char
  | [] => ([], [])
  | [c] => ([], [c])
  | c1 :: c2 :: rest =>
    if c1 = '\n' ∧ c2 = '\n' then
      let s := splitBlocks rest
      ([] :: s.1, s.2)
    else
      let s := splitBlocks (c2 :: rest)
      match s.1 with
      | [] => ([], c1 :: s.2)
      | b :: bs => ((c1 :: b) :: bs, s.2)

/-- Split one event block into its lines (`str::lines`; the blocks never end
in a newline, and the canonical input has no `\r`). -/
def splitLinesChars : List Char → List (List Char)
  | [] => [[]]
  | c :: rest =>
    if c = '\n' then [] :: splitLinesChars rest
    else
      match splitLinesChars rest with
      | [] => [[c]]
      | l :: ls => (c :: l) :: ls

/-- The 6-character line marker `"data: "`. -/
def dataMarker : List Char := "data: ".data

/-- Rust `line.strip_prefix("data: ")`. -/
def stripData (l : List Char) : Option (List Char) :=
  if l.take 6 = dataMarker then some (l.drop 6) else none

/-- The payload of an event block: the source's `for line in event_str.lines()`
keeps the **last** `data: ` line. -/
def dataLineOf (blk : List Char) : Option (List Char) :=
  (splitLinesChars blk).foldl
    (fun acc line =>
      match stripData line with
      | some d => some d
      | none => acc)
    none

/-- Decode and process a sequence of event blocks: blocks with no data line
or an undecodable payload are skipped, the rest drive `anthProcessEvents`. -/
def anthProcessBlocks (parse : List Char → Option AnthropicEvent)
    (model : String) (st : AnthState) (blocks : List (List Char)) :
    AnthState × List ChatResponse × Bool :=
  anthProcessEvents model st (blocks.filterMap (fun blk => (dataLineOf blk).bind parse))

/-- The streaming task's whole mutable state: loop locals, byte buffer, and
whether the task has returned. -/
structure AnthStream where
  st : AnthState
  buffer : List Char
  stopped : Bool
deriving DecidableEq

/-- Task state before the first byte arrives. -/
def AnthStream.initial : AnthStream :=
  { st := AnthState.initial, buffer := [], stopped := false }

/-- Receive one network fragment: append to the buffer, consume every
complete event block, stop for good on `message_stop` (a stopped task reads
nothing further, so its buffer is irrelevant and normalised to `[]`). -/
def anthFeed (parse : List Char → Option AnthropicEvent) (model : String)
    (p : AnthStream) (frag : List Char) : AnthStream × List ChatResponse :=
  if p.stopped then (p, [])
  else
    let sb := splitBlocks (p.buffer ++ frag)
    let r := anthProcessBlocks parse model p.st sb.1
    ({ st := r.1, buffer := if r.2.2 then [] else sb.2, stopped := r.2.2 }, r.2.1)

/-- Receive a sequence of network fragments, collecting every chunk sent. -/
def anthFeedAll (parse : List Char → Option AnthropicEvent) (model : String)
    (p : AnthStream) : List (List Char) → AnthStream × List ChatResponse
  | [] => (p, [])
  | f :: fs =>
    let r1 := anthFeed parse model p f
    let r2 := anthFeedAll parse model r1.1 fs
    (r2.1, r1.2 ++ r2.2)

/-! ### The canonical SSE sequence of §8 scenario 6

JSON payloads of the seven canonical events, in Anthropic's wire shape
(braces written `\x7b`/`\x7d`).  `message_start` carries `input_tokens = 7`. -/

/-- Payload of `message_start`. -/
def anthData1 : String :=
  "\x7b\"type\":\"message_start\",\"message\":\x7b\"id\":\"msg_1\",\"type\":\"message\",\"role\":\"assistant\",\"model\":\"claude\",\"usage\":\x7b\"input_tokens\":7,\"output_tokens\":1\x7d\x7d\x7d"

/-- Payload of `content_block_start`. -/
def anthData2 : String :=
  "\x7b\"type\":\"content_block_start\",\"index\":0,\"content_block\":\x7b\"type\":\"text\",\"text\":\"\"\x7d\x7d"

/-- First `content_block_delta` payload (`text = "Hel"`). -/
def anthData3 : String :=
  "\x7b\"type\":\"content_block_delta\",\"index\":0,\"delta\":\x7b\"type\":\"text_delta\",\"text\":\"Hel\"\x7d\x7d"

/-- Second `content_block_delta` payload (`text = "lo"`). -/
def anthData4 : String :=
  "\x7b\"type\":\"content_block_delta\",\"index\":0,\"delta\":\x7b\"type\":\"text_delta\",\"text\":\"lo\"\x7d\x7d"

/-- Payload of `content_block_stop`. -/
def anthData5 : String :=
  "\x7b\"type\":\"content_block_stop\",\"index\":0\x7d"

/-- Payload of `message_delta` (`stop_reason = "end_turn"`, `output_tokens = 2`). -/
def anthData6 : String :=
  "\x7b\"type\":\"message_delta\",\"delta\":\x7b\"stop_reason\":\"end_turn\",\"stop_sequence\":null\x7d,\"usage\":\x7b\"output_tokens\":2\x7d\x7d"

/-- Payload of `message_stop`. -/
def anthData7 : String :=
  "\x7b\"type\":\"message_stop\"\x7d"

/-- Decoder `serde_json::from_str::<StreamEvent>` fixed at the canonical payloads:
each payload decodes to its event (tagged by the `"type"` field); anything
else is treated as undecodable, which the loop skips.  (`serde_json` is an
external library; only its value at these seven inputs matters for the
canonical-sequence claim.) -/
def anthCanonicalParse (s : List Char) : Option AnthropicEvent :=
  if s = anthData1.data then some (.MessageStart 7)
  else if s = anthData2.data then some .ContentBlockStart
  else if s = anthData3.data then some (.ContentBlockDelta "Hel")
  else if s = anthData4.data then some (.ContentBlockDelta "lo")
  else if s = anthData5.data then some .ContentBlockStop
  else if s = anthData6.data then some (.MessageDelta (some "end_turn") (some 2))
  else if s = anthData7.data then some .MessageStop
  else none

/-- The canonical SSE byte stream: seven `event:`/`data:` blocks, each
terminated by the blank line that delimits SSE events. -/
def anthCanonicalSSE : String :=
  "event: message_start\ndata: " ++ anthData1 ++ "\n\n"
    ++ "event: content_block_start\ndata: " ++ anthData2 ++ "\n\n"
    ++ "event: content_block_delta\ndata: " ++ anthData3 ++ "\n\n"
    ++ "event: content_block_delta\ndata: " ++ anthData4 ++ "\n\n"
    ++ "event: content_block_stop\ndata: " ++ anthData5 ++ "\n\n"
    ++ "event: message_delta\ndata: " ++ anthData6 ++ "\n\n"
    ++ "event: message_stop\ndata: " ++ anthData7 ++ "\n\n"

/-- The chunks the claim expects for the canonical sequence: `"Hel"` and
`"lo"` with `done = false`, then the terminal chunk with empty content,
`done = true`, `finish_reason "end_turn"` and `total_tokens = 7 + 2`. -/
def anthCanonicalChunks : List ChatResponse :=
  [anthDeltaChunk "claude" "Hel",
   anthDeltaChunk "claude" "lo",
   anthFinalChunk "claude"
     { input_tokens := 7, output_tokens := 2, finish_reason := some "end_turn" }]

/-! ## Gemini streaming adapter (`src/providers/gemini.rs`)

`GeminiProvider::chat_completion_stream`'s task reads newline-delimited JSON;
each complete line is decoded to a `StreamResponse` (decode failures are
logged and skipped — the skipped lines simply do not appear in the list
below).  A line with an `error` field sends an error and returns.  Otherwise
the first candidate's part texts are joined; when non-empty, one chunk is
sent whose `done` is `finish_reason.is_some()`; the loop then continues with
the next line (it does *not* return after a `done` chunk). -/

/-- The fields of a decoded Gemini `StreamResponse` candidate that the loop
reads: the part texts and `finishReason`. -/
structure GeminiCandidate where
  parts : List String
  finish_reason : Option String
deriving DecidableEq

/-- Type `UsageMetadata` of a Gemini stream line (all fields optional). -/
structure GeminiUsageMetadata where
  prompt_token_count : Option Int
  candidates_token_count : Option Int
  total_token_count : Option Int
deriving DecidableEq

/-- A decoded Gemini stream line (`StreamResponse`): an optional API error,
optional candidates, optional usage metadata. -/
structure GeminiStreamLine where
  error : Option String
  candidates : Option (List GeminiCandidate)
  usage_metadata : Option GeminiUsageMetadata
deriving DecidableEq

/-- The chunk sent for one Gemini line with joined candidate text `content`. -/
def geminiChunk (model content : String) (cand : GeminiCandidate)
    (um : Option GeminiUsageMetadata) : ChatResponse :=
  { provider := "gemini", model := model, content := content,
    done := cand.finish_reason.isSome,
    usage := um.map (fun u =>
      { prompt_tokens := u.prompt_token_count.getD 0,
        completion_tokens := u.candidates_token_count.getD 0,
        total_tokens := u.total_token_count.getD 0 }),
    finish_reason := cand.finish_reason }

/-- The Gemini stream loop over decoded lines: returns the chunks sent in
order and, if an `error` line was hit, its error (ending the stream there). -/
def geminiProcessLines (model : String) :
    List GeminiStreamLine → List ChatResponse × Option String
  | [] => ([], none)
  | l :: ls =>
    match l.error with
    | some e => ([], some e)
    | none =>
      let emitted :=
        match l.candidates with
        | some (cand :: _) =>
          let content := String.join cand.parts
          if content ≠ "" then [geminiChunk model content cand l.usage_metadata]
          else []
        | _ => []
      let r := geminiProcessLines model ls
      (emitted ++ r.1, r.2)

/-- A streaming delta chunk: `done = false` and no usage. -/
def isDeltaChunk (c : ChatResponse) : Bool :=
  !c.done && c.usage.isNone

/-- A terminal chunk: `done = true`, empty content, and usage present with
`total_tokens = prompt_tokens + completion_tokens`. -/
def isFinalChunk (c : ChatResponse) : Bool :=
  c.done && c.content == "" &&
    (match c.usage with
     | some u => u.total_tokens == u.prompt_tokens + u.completion_tokens
     | none => false)

/-- Shape check for the chunk sequence of one Anthropic stream run: every
chunk before the last is a delta chunk; the last chunk is a terminal chunk
when the run returned via `message_stop` (`stop = true`, which also requires
at least one chunk) and a delta chunk otherwise.  In particular `done = true`
occurs at most once, only on the last chunk, and only with usage attached. -/
def anthOutOk : List ChatResponse → Bool → Bool
  | [], stop => !stop
  | [c], stop => if stop then isFinalChunk c else isDeltaChunk c
  | c :: rest, stop => isDeltaChunk c && anthOutOk rest stop

/-- A sample response used by concrete cache scenarios. -/
def sampleResponse : ChatResponse :=
  { provider := "anthropic", model := "claude", content := "hi", done := true,
    usage := none, finish_reason := none }

/-- First request of the fingerprint-collision pair: messages
`[(user, "aUser:b"), (user, "c")]`. -/
def collideReqA : ChatRequest :=
  { model := "m",
    messages := [{ role := .User, content := "aUser:b" }, { role := .User, content := "c" }],
    stream := false, temperature := none, max_tokens := none, top_p := none, system := none }

/-- Second request of the fingerprint-collision pair: messages
`[(user, "a"), (user, "bUser:c")]` — same length, same roles, different
contents. -/
def collideReqB : ChatRequest :=
  { model := "m",
    messages := [{ role := .User, content := "a" }, { role := .User, content := "bUser:c" }],
    stream := false, temperature := none, max_tokens := none, top_p := none, system := none }

/-- Two decoded Gemini stream lines, each carrying text and a
`finishReason`, with no API error. -/
def geminiTwoFinishLines : List GeminiStreamLine :=
  [{ error := none,
     candidates := some [{ parts := ["a"], finish_reason := some "STOP" }],
     usage_metadata := none },
   { error := none,
     candidates := some [{ parts := ["b"], finish_reason := some "STOP" }],
     usage_metadata := none }]

theorem splitBlocks_fst_nil : ∀ l : List Char,
    (splitBlocks l).1 = [] → (splitBlocks l).2 = l := by
  intro l
  induction l using splitBlocks.induct
  case case1 => intro _; rfl
  case case2 _ => intro _; rfl
  case case3 =>
    rename_i c1 c2 rest hnn ih
    simp [splitBlocks, hnn]
  case case4 =>
    rename_i c1 c2 rest hcond s hx ih
    have hx2 : (splitBlocks (c2 :: rest)).1 = [] := hx
    intro _
    simp only [splitBlocks, if_neg hcond, hx2]
    simp [ih hx2]
  case case5 =>
    rename_i c1 c2 rest hcond s b bs hx ih
    have hx2 : (splitBlocks (c2 :: rest)).1 = b :: bs := hx
    intro hcontra
    simp only [splitBlocks, if_neg hcond, hx2] at hcontra
    simp at hcontra

theorem splitBlocks_append : ∀ a b : List Char,
    splitBlocks (a ++ b) =
      ((splitBlocks a).1 ++ (splitBlocks ((splitBlocks a).2 ++ b)).1,
       (splitBlocks ((splitBlocks a).2 ++ b)).2) := by
  intro a
  induction a using splitBlocks.induct
  case case1 => intro b; simp [splitBlocks]
  case case2 c => intro b; simp [splitBlocks]
  case case3 =>
    rename_i c1 c2 rest hnn ih
    intro b
    obtain ⟨h1, h2⟩ := hnn
    subst h1; subst h2
    simp [splitBlocks, ih b]
  case case4 =>
    rename_i c1 c2 rest hcond s hx ih
    intro b
    have hx2 : (splitBlocks (c2 :: rest)).1 = [] := hx
    have hsnd : (splitBlocks (c2 :: rest)).2 = c2 :: rest := splitBlocks_fst_nil _ hx2
    have ha : splitBlocks (c1 :: c2 :: rest) = ([], c1 :: c2 :: rest) := by
      simp only [splitBlocks, if_neg hcond, hx2]
      simp [hsnd]
    rw [ha]
    simp
  case case5 =>
    rename_i c1 c2 rest hcond s b0 bs hx ih
    intro b
    have hx2 : (splitBlocks (c2 :: rest)).1 = b0 :: bs := hx
    have ih2 : splitBlocks (c2 :: (rest ++ b)) =
        ((splitBlocks (c2 :: rest)).1 ++ (splitBlocks ((splitBlocks (c2 :: rest)).2 ++ b)).1,
         (splitBlocks ((splitBlocks (c2 :: rest)).2 ++ b)).2) := by
      rw [← List.cons_append]
      exact ih b
    simp only [List.cons_append, splitBlocks, if_neg hcond, List.append_eq]
    rw [ih2, hx2]
    simp

theorem splitBlocks_residual : ∀ l : List Char,
    (splitBlocks (splitBlocks l).2).1 = [] := by
  intro l
  induction l using splitBlocks.induct
  case case1 => rfl
  case case2 _ => rfl
  case case3 =>
    rename_i c1 c2 rest hnn ih
    obtain ⟨h1, h2⟩ := hnn
    subst h1; subst h2
    simpa [splitBlocks] using ih
  case case4 =>
    rename_i c1 c2 rest hcond s hx ih
    have hx2 : (splitBlocks (c2 :: rest)).1 = [] := hx
    have hsnd : (splitBlocks (c2 :: rest)).2 = c2 :: rest := splitBlocks_fst_nil _ hx2
    have ha : splitBlocks (c1 :: c2 :: rest) = ([], c1 :: c2 :: rest) := by
      simp only [splitBlocks, if_neg hcond, hx2]
      simp [hsnd]
    rw [ha, ha]
  case case5 =>
    rename_i c1 c2 rest hcond s b0 bs hx ih
    have hx2 : (splitBlocks (c2 :: rest)).1 = b0 :: bs := hx
    simp only [splitBlocks, if_neg hcond, hx2]
    simpa [hx2] using ih

theorem anthProcessEvents_append (model : String) :
    ∀ (evs1 evs2 : List AnthropicEvent) (st : AnthState),
    anthProcessEvents model st (evs1 ++ evs2) =
      (if (anthProcessEvents model st evs1).2.2 then anthProcessEvents model st evs1
       else
         ((anthProcessEvents model (anthProcessEvents model st evs1).1 evs2).1,
          (anthProcessEvents model st evs1).2.1 ++
            (anthProcessEvents model (anthProcessEvents model st evs1).1 evs2).2.1,
          (anthProcessEvents model (anthProcessEvents model st evs1).1 evs2).2.2)) := by
  intro evs1
  induction evs1 with
  | nil => intro evs2 st; simp [anthProcessEvents]
  | cons e evs1 ih =>
    intro evs2 st
    by_cases hr : (anthStepEvent model st e).2.2
    · simp [anthProcessEvents, hr]
    · by_cases hq : (anthProcessEvents model (anthStepEvent model st e).1 evs1).2.2
      · simp [anthProcessEvents, hr, ih, hq]
      · simp [anthProcessEvents, hr, ih, hq]

theorem anthFeed_append (parse : List Char → Option AnthropicEvent) (model : String)
    (p : AnthStream) (a b : List Char) :
    anthFeed parse model p (a ++ b) =
      ((anthFeed parse model (anthFeed parse model p a).1 b).1,
       (anthFeed parse model p a).2 ++ (anthFeed parse model (anthFeed parse model p a).1 b).2) := by
  obtain ⟨pst, pbuf, pstop⟩ := p
  cases pstop with
  | true => simp [anthFeed]
  | false =>
    have hsplit : splitBlocks (pbuf ++ (a ++ b)) =
        ((splitBlocks (pbuf ++ a)).1 ++
           (splitBlocks ((splitBlocks (pbuf ++ a)).2 ++ b)).1,
         (splitBlocks ((splitBlocks (pbuf ++ a)).2 ++ b)).2) := by
      rw [← List.append_assoc]
      exact splitBlocks_append (pbuf ++ a) b
    by_cases hPA : (anthProcessBlocks parse model pst (splitBlocks (pbuf ++ a)).1).2.2
    · simp [anthFeed, hsplit, anthProcessBlocks, List.filterMap_append,
        anthProcessEvents_append, hPA]
      simp [anthProcessBlocks] at hPA
      simp [hPA]
    · simp [anthFeed, hsplit, anthProcessBlocks, List.filterMap_append,
        anthProcessEvents_append, hPA]
      simp [anthProcessBlocks] at hPA
      simp [hPA]

theorem anthFeed_buffer_ok (parse : List Char → Option AnthropicEvent) (model : String)
    (p : AnthStream) (frag : List Char) (h : (splitBlocks p.buffer).1 = []) :
    (splitBlocks (anthFeed parse model p frag).1.buffer).1 = [] := by
  obtain ⟨pst, pbuf, pstop⟩ := p
  cases pstop with
  | true => simpa [anthFeed] using h
  | false =>
    by_cases hstop : (anthProcessBlocks parse model pst (splitBlocks (pbuf ++ frag)).1).2.2
    · simp [anthFeed, hstop, splitBlocks]
    · simp [anthFeed, hstop, splitBlocks_residual]

theorem anthFeedAll_join (parse : List Char → Option AnthropicEvent) (model : String) :
    ∀ (frags : List (List Char)) (p : AnthStream), (splitBlocks p.buffer).1 = [] →
    anthFeedAll parse model p frags = anthFeed parse model p frags.flatten := by
  intro frags
  induction frags with
  | nil =>
    intro p h
    obtain ⟨pst, pbuf, pstop⟩ := p
    cases pstop with
    | true => simp [anthFeedAll, anthFeed]
    | false =>
      have h2 : (splitBlocks pbuf).1 = [] := by simpa using h
      have h3 : (splitBlocks pbuf).2 = pbuf := splitBlocks_fst_nil _ h2
      simp [anthFeedAll, anthFeed, h2, h3, anthProcessBlocks, anthProcessEvents]
  | cons f fs ih =>
    intro p h
    have hflat : (f :: fs).flatten = f ++ fs.flatten := rfl
    rw [hflat, anthFeed_append]
    have hok := anthFeed_buffer_ok parse model p f h
    rw [← ih _ hok]
    simp [anthFeedAll]

set_option maxRecDepth 80000 in
theorem anthCanonical_eval :
    anthFeed anthCanonicalParse "claude" AnthStream.initial anthCanonicalSSE.data =
      ({ st := { input_tokens := 7, output_tokens := 2, finish_reason := some "end_turn" },
         buffer := [], stopped := true }, anthCanonicalChunks) := by
  decide

theorem anthOutOk_cons (d : ChatResponse) (out : List ChatResponse) (stop : Bool)
    (hd : isDeltaChunk d = true) (h : anthOutOk out stop = true) :
    anthOutOk (d :: out) stop = true := by
  cases out with
  | nil =>
    cases stop with
    | false => simpa [anthOutOk] using hd
    | true => simp [anthOutOk] at h
  | cons o os => simp [anthOutOk, hd, h]

theorem anthProcessEvents_ok (model : String) :
    ∀ (evs : List AnthropicEvent) (st : AnthState),
    anthOutOk (anthProcessEvents model st evs).2.1
      (anthProcessEvents model st evs).2.2 = true := by
  intro evs
  induction evs with
  | nil => intro st; simp [anthProcessEvents, anthOutOk]
  | cons e es ih =>
    intro st
    cases e with
    | MessageStop =>
      simp [anthProcessEvents, anthStepEvent, anthOutOk, anthFinalChunk, isFinalChunk]
    | ContentBlockDelta text =>
      have ihs := ih st
      simp only [anthProcessEvents, anthStepEvent, Bool.false_eq_true, if_false,
        List.singleton_append]
      exact anthOutOk_cons _ _ _ rfl ihs
    | MessageStart i =>
      simpa [anthProcessEvents, anthStepEvent] using ih _
    | MessageDelta sr u =>
      simpa [anthProcessEvents, anthStepEvent] using ih _
    | ContentBlockStart =>
      simpa [anthProcessEvents, anthStepEvent] using ih _
    | ContentBlockStop =>
      simpa [anthProcessEvents, anthStepEvent] using ih _
    | Ping =>
      simpa [anthProcessEvents, anthStepEvent] using ih _
    | Unknown =>
      simpa [anthProcessEvents, anthStepEvent] using ih _

theorem geminiProcessLines_done_iff (model : String) :
    ∀ lines : List GeminiStreamLine,
    ((geminiProcessLines model lines).1.all
      (fun c => c.done == c.finish_reason.isSome)) = true := by
  intro lines
  induction lines with
  | nil => simp [geminiProcessLines]
  | cons l ls ih =>
    cases hl : l.error with
    | some e => simp [geminiProcessLines, hl]
    | none =>
      cases hc : l.candidates with
      | none => simpa [geminiProcessLines, hl, hc] using ih
      | some cl =>
        cases cl with
        | nil => simpa [geminiProcessLines, hl, hc] using ih
        | cons cand cs =>
          by_cases hne : String.join cand.parts = ""
          · simpa [geminiProcessLines, hl, hc, hne] using ih
          · simpa [geminiProcessLines, hl, hc, hne, geminiChunk] using ih

theorem asciiToLower_idem (c : Char) : asciiToLower (asciiToLower c) = asciiToLower c := by
  by_cases h : 65 ≤ c.toNat ∧ c.toNat ≤ 90
  · have h1 : (Char.ofNatAux (c.toNat + 32) (Or.inl (by omega))).toNat = c.toNat + 32 := rfl
    simp only [asciiToLower, dif_pos h]
    rw [dif_neg]
    rw [h1]
    omega
  · simp only [asciiToLower, dif_neg h]

theorem strToLower_idem (s : String) : strToLower (strToLower s) = strToLower s := by
  simp only [strToLower, List.map_map]
  congr 1
  apply List.map_congr_left
  intro c _
  exact asciiToLower_idem c

/-- C9: provider name parsing round-trips (`from_str (as_str p) = Some p`),
is insensitive to lowercasing (`from_str s = from_str (lowercase s)`), and
yields `None` on any string matching no variant. -/
theorem provider_from_str_spec :
    (∀ p : Provider, Provider.fromStr p.asStr = some p) ∧
    (∀ s : String, Provider.fromStr s = Provider.fromStr (strToLower s)) ∧
    (∀ s : String, (∀ p : Provider, strToLower s ≠ p.asStr) →
      Provider.fromStr s = none) := by
  refine ⟨?_, ?_, ?_⟩
  · intro p
    cases p <;> rfl
  · intro s
    simp only [Provider.fromStr, strToLower_idem]
  · intro s h
    simp only [Provider.fromStr]
    rw [if_neg (show strToLower s ≠ "anthropic" from h .Anthropic),
      if_neg (show strToLower s ≠ "anthropic_max" from h .AnthropicMax),
      if_neg (show strToLower s ≠ "openai" from h .OpenAI),
      if_neg (show strToLower s ≠ "xai" from h .Xai),
      if_neg (show strToLower s ≠ "gemini" from h .Gemini),
      if_neg (show strToLower s ≠ "github_copilot" from h .GithubCopilot),
      if_neg (show strToLower s ≠ "ollama" from h .Ollama),
      if_neg (show strToLower s ≠ "omen" from h .Omen)]

/-- Witness for `provider_from_str_spec`: its no-variant clause applied to the
concrete string `"mistral"`. -/
theorem provider_from_str_spec_witness :
    Provider.fromStr "mistral" = none :=
  provider_from_str_spec.2.2 "mistral" (by intro p; cases p <;> decide)

/-- C3: `can_attempt` in each breaker state: `true` in Closed; in Open,
`false` before `next_attempt` and `true` with a transition to HalfOpen
(resetting `success_count`) from `next_attempt` on; `true` in HalfOpen. -/
theorem can_attempt_spec (now : Nat) (c : ProviderCircuit) :
    (c.state = .Closed → canAttempt now c = (true, c)) ∧
    (∀ na, c.state = .Open → c.next_attempt = some na → now < na →
      canAttempt now c = (false, c)) ∧
    (∀ na, c.state = .Open → c.next_attempt = some na → na ≤ now →
      canAttempt now c = (true, { c with state := .HalfOpen, successes := 0 })) ∧
    (c.state = .HalfOpen → canAttempt now c = (true, c)) := by
  refine ⟨?_, ?_, ?_, ?_⟩
  · intro h; simp [canAttempt, h]
  · intro na ho hna hlt
    simp [canAttempt, ho, hna, Nat.not_le.mpr hlt]
  · intro na ho hna hle
    simp [canAttempt, ho, hna, hle]
  · intro h; simp [canAttempt, h]

/-- Witness for `can_attempt_spec`: all four clauses at concrete circuits
(`next_attempt = 20`, observed at `now = 7` and `now = 25`). -/
theorem can_attempt_spec_witness :
    canAttempt 7 ProviderCircuit.initial = (true, ProviderCircuit.initial) ∧
    canAttempt 7 { ProviderCircuit.initial with state := .Open, next_attempt := some 20 } =
      (false, { ProviderCircuit.initial with state := .Open, next_attempt := some 20 }) ∧
    canAttempt 25 { ProviderCircuit.initial with state := .Open, next_attempt := some 20 } =
      (true, { ProviderCircuit.initial with state := .HalfOpen, next_attempt := some 20 }) ∧
    canAttempt 7 { ProviderCircuit.initial with state := .HalfOpen } =
      (true, { ProviderCircuit.initial with state := .HalfOpen }) :=
  ⟨(can_attempt_spec 7 _).1 rfl,
   (can_attempt_spec 7 _).2.1 20 rfl rfl (by omega),
   (can_attempt_spec 25 _).2.2.1 20 rfl rfl (by omega),
   (can_attempt_spec 7 _).2.2.2 rfl⟩

/-- C1 counterexample: two enabled providers, counter 0, the selected
provider (index `0 % 2 = 0`) fails while the other would succeed; the router
returns the failure having attempted only index 0 and leaves index 1 untried —
there is no wrap-around, contradicting "up to N providers are tried before the
request fails". -/
theorem route_round_robin_counterexample :
    routeRoundRobin [Except.error "boom", Except.ok (42 : Nat)] 0 =
      (Except.error "boom", [0], 1) := rfl

/-- C1 amended: `route_round_robin` attempts exactly one candidate, the one at
index `counter mod N` in enabled-provider order, returns that candidate's
outcome unchanged (failure included), and increments the counter exactly once
per request. -/
theorem route_round_robin_spec (outcomes : List (Except String α)) (counter : Nat)
    (h : outcomes ≠ []) :
    (routeRoundRobin outcomes counter).2.1 = [counter % outcomes.length] ∧
    outcomes.get? (counter % outcomes.length) = some (routeRoundRobin outcomes counter).1 ∧
    (routeRoundRobin outcomes counter).2.2 = counter + 1 := by
  match outcomes, h with
  | o :: os, _ =>
    refine ⟨rfl, ?_, rfl⟩
    have hlt : counter % (o :: os).length < (o :: os).length :=
      Nat.mod_lt _ (by simp)
    rw [List.get?_eq_get hlt]
    rfl

/-- Witness for `route_round_robin_spec` at two concrete outcomes and
counter 1. -/
theorem route_round_robin_spec_witness :
    (routeRoundRobin [Except.error "boom", Except.ok (42 : Nat)] 1).2.1 = [1 % 2] ∧
    [Except.error "boom", Except.ok (42 : Nat)].get? (1 % 2) =
      some (routeRoundRobin [Except.error "boom", Except.ok (42 : Nat)] 1).1 ∧
    (routeRoundRobin [Except.error "boom", Except.ok (42 : Nat)] 1).2.2 = 1 + 1 :=
  route_round_robin_spec _ 1 (List.cons_ne_nil _ _)

/-- C2 counterexample: with `FT = 5`, `T = 30`, five failures for
`"anthropic"` recorded at time 0 and a `preferred` route at time `10 < 0+30`,
the router returns the breaker-open error — which is a different error from
`NoProviderAvailable` (`"No enabled providers available"`) — and does not
invoke the adapter. -/
theorem breaker_preferred_counterexample :
    routePreferred 5 3 30 10 ["anthropic"]
        (fun _ => recordFailure 5 30 0 (recordFailure 5 30 0 (recordFailure 5 30 0
          (recordFailure 5 30 0 (recordFailure 5 30 0 ProviderCircuit.initial)))))
        (Except.ok (0 : Nat)) =
      (Except.error (breakerOpenMsg "anthropic"),
       { state := .Open, failures := 5, successes := 0,
         last_failure_time := some 0, next_attempt := some 30 }, false) ∧
    breakerOpenMsg "anthropic" ≠ noProviderMsg :=
  ⟨rfl, by decide⟩

/-- C2 amended: after five recorded failures (times `t₁ … t₅`) the circuit is
Open with `next_attempt = t₅ + 30`; any `preferred` unary route before that
instant returns the breaker-open error (not `NoProviderAvailable`) without
invoking the adapter of provider A, whatever that adapter would have
returned: the breaker check precedes and short-circuits the adapter call. -/
theorem breaker_preferred_spec (t1 t2 t3 t4 t5 now : Nat)
    (adapterResult : Except String α) (hnow : now < t5 + 30) :
    routePreferred 5 3 30 now ["anthropic"]
        (fun _ => recordFailure 5 30 t5 (recordFailure 5 30 t4 (recordFailure 5 30 t3
          (recordFailure 5 30 t2 (recordFailure 5 30 t1 ProviderCircuit.initial)))))
        adapterResult =
      (Except.error (breakerOpenMsg "anthropic"),
       { state := .Open, failures := 5, successes := 0,
         last_failure_time := some t5, next_attempt := some (t5 + 30) }, false) := by
  have hc5 : recordFailure 5 30 t5 (recordFailure 5 30 t4 (recordFailure 5 30 t3
      (recordFailure 5 30 t2 (recordFailure 5 30 t1 ProviderCircuit.initial)))) =
      { state := .Open, failures := 5, successes := 0,
        last_failure_time := some t5, next_attempt := some (t5 + 30) } := by
    simp [recordFailure, ProviderCircuit.initial]
  rw [routePreferred, hc5]
  simp [callProvider, canAttempt, Nat.not_le.mpr hnow]

/-- Witness for `breaker_preferred_spec`: failures at times 1…5, route at
time 20 < 35, adapter outcome `ok 7`. -/
theorem breaker_preferred_spec_witness :
    20 < 5 + 30 ∧
    routePreferred 5 3 30 20 ["anthropic"]
        (fun _ => recordFailure 5 30 5 (recordFailure 5 30 4 (recordFailure 5 30 3
          (recordFailure 5 30 2 (recordFailure 5 30 1 ProviderCircuit.initial)))))
        (Except.ok (7 : Nat)) =
      (Except.error (breakerOpenMsg "anthropic"),
       { state := .Open, failures := 5, successes := 0,
         last_failure_time := some 5, next_attempt := some (5 + 30) }, false) :=
  ⟨by omega, breaker_preferred_spec 1 2 3 4 5 20 _ (by omega)⟩

theorem oldestEntry_eq_none : ∀ es : List (String × CacheEntry),
    oldestEntry es = none ↔ es = [] := by
  intro es
  cases es with
  | nil => simp [oldestEntry]
  | cons e es =>
    simp only [oldestEntry]
    split <;> simp_all
    split <;> simp

theorem oldestEntry_mem : ∀ (es : List (String × CacheEntry)) (m : String × CacheEntry),
    oldestEntry es = some m → m ∈ es := by
  intro es
  induction es with
  | nil => intro m h; simp [oldestEntry] at h
  | cons e es ih =>
    intro m h
    rcases hrec : oldestEntry es with _ | m2
    · rw [oldestEntry, hrec] at h
      simp at h
      simp [h]
    · rw [oldestEntry, hrec] at h
      by_cases hlt : m2.2.created_at < e.2.created_at
      · simp [hlt] at h
        rw [← h]
        exact List.mem_cons_of_mem _ (ih _ hrec)
      · simp [hlt] at h
        simp [← h]

theorem oldestEntry_min : ∀ (es : List (String × CacheEntry)) (m : String × CacheEntry),
    oldestEntry es = some m → ∀ p ∈ es, m.2.created_at ≤ p.2.created_at := by
  intro es
  induction es with
  | nil => intro m h; simp [oldestEntry] at h
  | cons e es ih =>
    intro m h p hp
    rcases hrec : oldestEntry es with _ | m2
    · have hes : es = [] := (oldestEntry_eq_none es).mp hrec
      subst hes
      simp [oldestEntry] at h
      simp at hp
      rw [← h, hp]
    · rw [oldestEntry, hrec] at h
      rcases List.mem_cons.mp hp with hpe | hpes
      · by_cases hlt : m2.2.created_at < e.2.created_at
        · simp [hlt] at h; rw [← h, hpe]; exact le_of_lt hlt
        · simp [hlt] at h; rw [← h, hpe]
      · have hm2 := ih m2 hrec p hpes
        by_cases hlt : m2.2.created_at < e.2.created_at
        · simp [hlt] at h; rw [← h]; exact hm2
        · simp [hlt] at h; rw [← h]
          exact le_trans (Nat.le_of_not_lt hlt) hm2

theorem length_filter_lt_of_mem {α : Type} (l : List α) (p : α → Bool) (a : α)
    (ha : a ∈ l) (hpa : p a = false) : (l.filter p).length < l.length := by
  induction l with
  | nil => simp at ha
  | cons x xs ih =>
    rcases List.mem_cons.mp ha with h | h
    · subst h
      rw [List.filter_cons_of_neg (by simp [hpa])]
      have := List.length_filter_le p xs
      simp only [List.length_cons]
      omega
    · by_cases hx : p x = true
      · rw [List.filter_cons_of_pos hx]
        have := ih h
        simp only [List.length_cons]
        omega
      · rw [List.filter_cons_of_neg (by simpa using hx)]
        have := ih h
        simp only [List.length_cons]
        omega

theorem cacheGet_length_le (ttl now : Nat) (k : String)
    (entries : List (String × CacheEntry)) :
    (cacheGet ttl now k entries).2.length ≤ entries.length := by
  rw [cacheGet]
  rcases hf : entries.find? (fun p => p.1 = k) with _ | ⟨a, e⟩
  · rw [hf]
  · rw [hf]
    by_cases hex : ttl < now - e.created_at
    · simp only [if_pos hex]
      exact List.length_filter_le _ _
    · simp only [if_neg hex]
      simp

theorem cacheSet_length (max_size now : Nat) (k : String) (v : ChatResponse)
    (entries : List (String × CacheEntry))
    (h : entries.length ≤ max max_size 1) :
    (cacheSet max_size now k v entries).length ≤ max max_size 1 := by
  have hb1 : (1 : Nat) ≤ max max_size 1 := le_max_right _ _
  have hbm : max_size ≤ max max_size 1 := le_max_left _ _
  rw [cacheSet]
  by_cases hcap : max_size ≤ entries.length ∧ entries.all (fun p => p.1 ≠ k)
  · rw [if_pos hcap]
    rcases hold : oldestEntry entries with _ | m
    · have hes : entries = [] := (oldestEntry_eq_none entries).mp hold
      subst hes
      simp
    · have hmem := oldestEntry_mem entries m hold
      have hflt : (entries.filter (fun p => p.1 ≠ m.1)).length < entries.length :=
        length_filter_lt_of_mem entries _ m hmem (by simp)
      by_cases hany : (entries.filter (fun p => p.1 ≠ m.1)).any (fun p => p.1 = k)
      · rw [if_pos hany, List.length_map]
        exact le_trans (List.length_filter_le _ _) h
      · rw [if_neg hany, List.length_append]
        simp only [List.length_cons, List.length_nil, Nat.zero_add]
        exact le_trans hflt h
  · rw [if_neg hcap]
    by_cases hany : entries.any (fun p => p.1 = k)
    · rw [if_pos hany, List.length_map]
      exact h
    · rw [if_neg hany, List.length_append]
      simp only [List.length_cons, List.length_nil, Nat.zero_add]
      rcases not_and_or.mp hcap with hsz | hall
      · have h1 : entries.length + 1 ≤ max_size := Nat.lt_of_not_le hsz
        exact le_trans h1 hbm
      · exfalso
        rw [List.all_eq_true] at hall
        push_neg at hall
        obtain ⟨p, hp, hpk⟩ := hall
        apply hany
        rw [List.any_eq_true]
        refine ⟨p, hp, ?_⟩
        simp at hpk ⊢
        exact hpk

theorem cacheRun_length (max_size ttl : Nat) (ops : List CacheOp) :
    (cacheRun max_size ttl ops).length ≤ max max_size 1 := by
  suffices hgen : ∀ (entries : List (String × CacheEntry)),
      entries.length ≤ max max_size 1 →
      (ops.foldl (cacheApply max_size ttl) entries).length ≤ max max_size 1 by
    exact hgen [] (by simp)
  induction ops with
  | nil => intro entries h; simpa using h
  | cons op ops ih =>
    intro entries h
    rw [List.foldl_cons]
    apply ih
    cases op with
    | get now k =>
      exact le_trans (cacheGet_length_le ttl now k entries) h
    | set now k v =>
      exact cacheSet_length max_size now k v entries h
    | clear => simp [cacheApply]

/-- C4 counterexample: with `max_size = 0` a single `set` on the empty cache
stores one entry (the eviction scan finds nothing to remove, the insert is
unconditional), so `|entries| = 1 > max_size`. -/
theorem cache_size_counterexample :
    (cacheRun 0 300 [CacheOp.set 0 "k" sampleResponse]).length = 1 := rfl

/-- C4 amended: for every operation sequence the entry count never exceeds
`max max_size 1` (so the claimed bound `max_size` holds whenever
`max_size ≥ 1`, but with `max_size = 0` one entry can live in the cache); the
eviction scan always selects an entry with the smallest `created_at`. -/
theorem cache_size_spec :
    (∀ (max_size ttl : Nat) (ops : List CacheOp),
      (cacheRun max_size ttl ops).length ≤ max max_size 1) ∧
    (∀ (es : List (String × CacheEntry)) (m : String × CacheEntry),
      oldestEntry es = some m → m ∈ es ∧ ∀ p ∈ es, m.2.created_at ≤ p.2.created_at) :=
  ⟨cacheRun_length,
   fun es m h => ⟨oldestEntry_mem es m h, oldestEntry_min es m h⟩⟩

/-- Witness for `cache_size_spec`: a three-`set` run at `max_size = 2` holds
two entries, and the eviction scan on a concrete two-entry map picks the
older entry. -/
theorem cache_size_spec_witness :
    (cacheRun 2 300 [CacheOp.set 0 "a" sampleResponse, CacheOp.set 1 "b" sampleResponse,
        CacheOp.set 2 "c" sampleResponse]).length ≤ max 2 1 ∧
    (("b", { response := sampleResponse, created_at := 1, access_count := 0 }) ∈
        ([("b", { response := sampleResponse, created_at := 1, access_count := 0 }),
          ("c", { response := sampleResponse, created_at := 2, access_count := 0 })] :
          List (String × CacheEntry)) ∧
      ∀ p ∈ ([("b", { response := sampleResponse, created_at := 1, access_count := 0 }),
          ("c", { response := sampleResponse, created_at := 2, access_count := 0 })] :
          List (String × CacheEntry)),
        (1 : Nat) ≤ p.2.created_at) :=
  ⟨cache_size_spec.1 2 300 _, cache_size_spec.2 _ _ rfl⟩

/-- C5: the hasher input concatenates `"{role:?}:{content}"` fragments with no
delimiter between messages, so two requests with different message contents
produce the *same* byte string `"mUser:aUser:bUser:c"` — hence the same
SHA-256 fingerprint with certainty, not merely with hash-collision
probability. -/
theorem cache_key_collision :
    cacheKeyInput collideReqA = cacheKeyInput collideReqB ∧
    collideReqA.messages.map (fun msg => msg.content) ≠
      collideReqB.messages.map (fun msg => msg.content) :=
  ⟨rfl, by decide⟩

theorem checkRateLimit_inv (rpm rph : Nat) (now : ℚ) (ob : Option TokenBucket)
    (h : ∀ b0, ob = some b0 → 0 ≤ b0.tokens ∧ b0.tokens ≤ (rpm : ℚ) ∧
      b0.hourly_count ≤ rph ∧ b0.last_refill ≤ now) :
    0 ≤ (checkRateLimit rpm rph now ob).2.tokens ∧
    (checkRateLimit rpm rph now ob).2.tokens ≤ (rpm : ℚ) ∧
    (checkRateLimit rpm rph now ob).2.hourly_count ≤ rph ∧
    (checkRateLimit rpm rph now ob).2.last_refill ≤ now := by
  have hrpmQ : (0 : ℚ) ≤ (rpm : ℚ) := Nat.cast_nonneg _
  have hrate : (0 : ℚ) ≤ (rpm : ℚ) / 60 := by positivity
  cases ob with
  | none =>
    have hreset : ¬ ((now + 3600 : ℚ) ≤ now) := by linarith
    simp only [checkRateLimit, Option.getD, hreset, if_false]
    have hsub : now - now = (0 : ℚ) := sub_self now
    simp only [hsub, zero_mul, add_zero, min_self]
    split_ifs with h1 h2 <;>
      simp only [] <;>
      refine ⟨?_, ?_, ?_, ?_⟩ <;>
      linarith
  | some b0 =>
    obtain ⟨ht0, htr, hhc, hlr⟩ := h b0 rfl
    simp only [checkRateLimit, Option.getD]
    have helapsed : (0 : ℚ) ≤ now - b0.last_refill := by linarith
    by_cases hreset : b0.hourly_reset ≤ now
    · simp only [if_pos hreset]
      split_ifs with h1 h2 <;>
        refine ⟨?_, ?_, ?_, ?_⟩ <;>
        first
          | omega
          | linarith [le_min (le_trans ht0 (by linarith [mul_nonneg helapsed hrate] :
              b0.tokens ≤ b0.tokens + (now - b0.last_refill) * ((rpm : ℚ) / 60))) hrpmQ,
              min_le_right (b0.tokens + (now - b0.last_refill) * ((rpm : ℚ) / 60)) ((rpm : ℚ))]
    · simp only [if_neg hreset]
      split_ifs with h1 h2 <;>
        refine ⟨?_, ?_, ?_, ?_⟩ <;>
        first
          | omega
          | linarith [le_min (le_trans ht0 (by linarith [mul_nonneg helapsed hrate] :
              b0.tokens ≤ b0.tokens + (now - b0.last_refill) * ((rpm : ℚ) / 60))) hrpmQ,
              min_le_right (b0.tokens + (now - b0.last_refill) * ((rpm : ℚ) / 60)) ((rpm : ℚ))]

/-- C6: in every bucket state reachable by `check_rate_limit` calls at
monotone clock readings, `0 ≤ tokens ≤ rpm` and `hourly_count ≤ rph` (the
lower bound `0 ≤ hourly_count` is inherent to `u32`/`Nat`). -/
theorem rate_limit_bucket_inv (rpm rph : Nat) (t : ℚ) (b : TokenBucket)
    (h : ReachableBucket rpm rph t b) :
    0 ≤ b.tokens ∧ b.tokens ≤ (rpm : ℚ) ∧ b.hourly_count ≤ rph := by
  have haux : 0 ≤ b.tokens ∧ b.tokens ≤ (rpm : ℚ) ∧ b.hourly_count ≤ rph ∧
      b.last_refill ≤ t := by
    induction h with
    | init now => exact checkRateLimit_inv rpm rph now none (by simp)
    | step t0 b0 now hreach hle ih =>
      refine checkRateLimit_inv rpm rph now (some b0) ?_
      intro b1 hb1
      cases hb1
      exact ⟨ih.1, ih.2.1, ih.2.2.1, le_trans ih.2.2.2 hle⟩
  exact ⟨haux.1, haux.2.1, haux.2.2.1⟩

/-- Witness for `rate_limit_bucket_inv`: the bucket after one call on a fresh
key with `rpm = 2`, `rph = 10` at time 0. -/
theorem rate_limit_bucket_inv_witness :
    0 ≤ (checkRateLimit 2 10 0 none).2.tokens ∧
    (checkRateLimit 2 10 0 none).2.tokens ≤ ((2 : Nat) : ℚ) ∧
    (checkRateLimit 2 10 0 none).2.hourly_count ≤ 10 :=
  rate_limit_bucket_inv 2 10 0 _ (ReachableBucket.init 0)

/-- C10: the first `check_rate_limit` call on a key with no bucket always
admits when `rpm ≥ 1` and `rph ≥ 1`: the bucket is created full
(`tokens = rpm`, `hourly_count = 0`), so the call consumes one token and
stores `tokens = rpm − 1`, `hourly_count = 1`. -/
theorem fresh_key_first_check (rpm rph : Nat) (now : ℚ)
    (h1 : 1 ≤ rpm) (h2 : 1 ≤ rph) :
    checkRateLimit rpm rph now none =
      (true, { tokens := (rpm : ℚ) - 1, last_refill := now,
               hourly_count := 1, hourly_reset := now + 3600 }) := by
  have hreset : ¬ ((now + 3600 : ℚ) ≤ now) := by linarith
  have hrph : ¬ (rph ≤ 0) := by omega
  have hone : (1 : ℚ) ≤ (rpm : ℚ) := by exact_mod_cast h1
  simp only [checkRateLimit, Option.getD, if_neg hreset, if_neg hrph,
    sub_self, zero_mul, add_zero, min_self, if_pos hone]

/-- Witness for `fresh_key_first_check` at `rpm = 2`, `rph = 10`, time 0. -/
theorem fresh_key_first_check_witness :
    checkRateLimit 2 10 0 none =
      (true, { tokens := ((2 : Nat) : ℚ) - 1, last_refill := 0,
               hourly_count := 1, hourly_reset := (0 : ℚ) + 3600 }) :=
  fresh_key_first_check 2 10 0 (by omega) (by omega)

/-- C7 counterexample: the Gemini adapter marks `done` per line from that
line's `finishReason` and keeps reading, so this error-free stream emits two
chunks that *both* have `done = true` — the first is not the last chunk —
refuting "exactly one emitted chunk has done = true and it is the last". -/
theorem stream_done_counterexample :
    geminiProcessLines "gemini-pro" geminiTwoFinishLines =
      ([{ provider := "gemini", model := "gemini-pro", content := "a", done := true,
          usage := none, finish_reason := some "STOP" },
        { provider := "gemini", model := "gemini-pro", content := "b", done := true,
          usage := none, finish_reason := some "STOP" }], none) := rfl

/-- C7 amended: the Anthropic stream task emits, for any event sequence, only
delta chunks (`done = false`, no usage) until an optional single terminal
chunk (`done = true`, empty content, usage with `total = prompt +
completion`) which is always last and appears exactly when `message_stop` is
processed; the Gemini task stamps each chunk's `done` flag as
`finish_reason.is_some()` of its own line, so zero or several `done = true`
chunks may occur there. -/
theorem stream_done_spec :
    (∀ (model : String) (st : AnthState) (evs : List AnthropicEvent),
      anthOutOk (anthProcessEvents model st evs).2.1
        (anthProcessEvents model st evs).2.2 = true) ∧
    (∀ (model : String) (lines : List GeminiStreamLine),
      ((geminiProcessLines model lines).1.all
        (fun c => c.done == c.finish_reason.isSome)) = true) :=
  ⟨fun model st evs => anthProcessEvents_ok model evs st,
   fun model lines => geminiProcessLines_done_iff model lines⟩

/-- C8: fed the canonical SSE sequence in any fragmentation of its bytes,
the Anthropic stream task emits exactly the chunks `"Hel"`, `"lo"` (both
`done = false`) and one final chunk with empty content, `done = true`,
`finish_reason "end_turn"` and `total_tokens = 7 + 2`, then returns. -/
theorem anthropic_canonical_stream (frags : List (List Char))
    (h : frags.flatten = anthCanonicalSSE.data) :
    anthFeedAll anthCanonicalParse "claude" AnthStream.initial frags =
      ({ st := { input_tokens := 7, output_tokens := 2, finish_reason := some "end_turn" },
         buffer := [], stopped := true }, anthCanonicalChunks) := by
  rw [anthFeedAll_join anthCanonicalParse "claude" frags AnthStream.initial rfl, h]
  exact anthCanonical_eval

/-- Witness for `anthropic_canonical_stream`: the canonical bytes split into
two fragments of 50 and the remaining characters (the cut falls inside the
first event's JSON payload). -/
theorem anthropic_canonical_stream_witness :
    ([anthCanonicalSSE.data.take 50, anthCanonicalSSE.data.drop 50] :
        List (List Char)).flatten = anthCanonicalSSE.data ∧
    anthFeedAll anthCanonicalParse "claude" AnthStream.initial
        [anthCanonicalSSE.data.take 50, anthCanonicalSSE.data.drop 50] =
      ({ st := { input_tokens := 7, output_tokens := 2, finish_reason := some "end_turn" },
         buffer := [], stopped := true }, anthCanonicalChunks) :=
  ⟨by simp [List.take_append_drop],
   anthropic_canonical_stream _ (by simp [List.take_append_drop])⟩

end Thanos
